import Mathlib

/-!
Verification of the PSAR engine (`src/pandas_ta/trend/psar.py`) and the
offset handling of its sibling indicator BRAR
(`src/pandas_ta/momentum/brar.py`).

Prices and parameters are modelled as exact rationals (`ℚ`); pandas missing
values (`NaN`) are modelled as `none : Option ℚ`.  A pandas `Series` becomes a
`List (Option ℚ)` (or `List ℚ` where the source guarantees no missing
values).  The Python function returning `None` on failed validation becomes an
`Option`-valued result.
-/

namespace PandasTa

/-- Modelled from the spec: `pandas_ta.utils.zero` is not under `src/`.
It flushes values that are zero up to floating-point epsilon to an exact
zero; in the exact rational model the epsilon is 0, so only an exact zero is
flushed. -/
def zero (x : ℚ) : ℚ := if x = 0 then 0 else x

/-- Modelled from the spec: `pandas_ta.utils.v_series` is not under `src/`.
Per the spec's validation description ("fails ... if high/low ... are empty,
or contain fewer than 2 aligned points (recurrence needs at least 2 seed
bars)") it is the minimum-length validator: it returns the series unchanged
when the series has at least `len` elements and `none` (Python `None`)
otherwise.  `psar` calls it with `_length = 1`. -/
def v_series (s : List ℚ) (len : ℕ) : Option (List ℚ) :=
  if len ≤ s.length then some s else none

/-- Modelled from the spec: `pandas_ta.utils.v_pos_default` is not under
`src/`.  Per the spec's configuration surface every acceleration parameter
has a default used when the caller supplies no value and "must be > 0": a
supplied positive value is kept, anything else falls back to the default. -/
def v_pos_default (v : Option ℚ) (d : ℚ) : ℚ :=
  match v with
  | some x => if 0 < x then x else d
  | none => d

/-- Embedding of `_falling` (psar.py lines 162-168) with `drift = 1`:
`up = high - high.shift(1)`, `dn = low.shift(1) - low`,
`_dmn = (((dn > up) & (dn > 0)) * dn).apply(zero).iloc[-1]`, returning
`_dmn > 0`.  Only the last position is inspected; at position 0 the shifted
values are missing (NaN) and every comparison with NaN is false, so a
single-element input yields `false`. -/
def _falling (high low : List ℚ) : Bool :=
  let i := high.length - 1
  if 1 ≤ i then
    let up := high.getD i 0 - high.getD (i - 1) 0
    let dn := low.getD (i - 1) 0 - low.getD i 0
    let dmn := if dn > up ∧ dn > 0 then zero dn else 0
    decide (dmn > 0)
  else
    false

/-- The mutable scalar state threaded through the psar loop:
`sar`, `ep`, `af`, `falling` (psar.py lines 56-68 initialize it,
lines 82-118 update it). -/
structure PsarState where
  sar : ℚ
  ep : ℚ
  af : ℚ
  falling : Bool
deriving Repr, DecidableEq

/-- One output row of the psar computation: `long`/`short` hold the committed
stop (NaN for the inactive direction), `af` the recorded acceleration factor
and `reversal` the 0/1 flag. -/
structure PsarRow where
  long : Option ℚ
  short : Option ℚ
  af : ℚ
  reversal : ℚ
deriving Repr, DecidableEq

/-- Output row committed at the end of one loop iteration
(psar.py lines 118-127): after `sar = _sar`, the committed `sar` goes to
`short` when `falling` else to `long`; `_af.iat[row] = af` and
`reversal.iat[row] = int(reverse)`. -/
def psarRowOf (s : PsarState) (reverse : Bool) : PsarRow :=
  { long := if s.falling then none else some s.sar
    short := if s.falling then some s.sar else none
    af := s.af
    reversal := if reverse then 1 else 0 }

/-- One iteration of the psar recurrence (psar.py lines 82-118), returning the
updated state together with the step's `reverse` flag.  The Python loop
mutates `ep`, `af`, `_sar` sequentially; here each final value is written as
one conditional expression with identical semantics:
* `sarCand` is `_sar = sar + af * (ep - sar)` (line 86);
* `reverse` is `high_ > _sar` when falling, `low_ < _sar` when rising
  (lines 89, 97), tested against the unclamped candidate;
* `ep1`/`af1` are the extreme-point / acceleration updates (lines 91-93,
  99-101), applied before clamping;
* `sar1` is the two-bar clamp (lines 95, 103);
* on reversal (lines 105-116) the stop is recomputed (`tv` variant uses the
  updated `ep1`), `af` resets to `af0`, `falling` flips and `ep` reseeds from
  the current bar. -/
def psarStep (paf max_af af0 : ℚ) (tv : Bool) (high low : ℕ → ℚ)
    (row : ℕ) (s : PsarState) : PsarState × Bool :=
  let high_ := high row
  let low_ := low row
  let sarCand := s.sar + s.af * (s.ep - s.sar)
  let reverse : Bool :=
    if s.falling then decide (high_ > sarCand) else decide (low_ < sarCand)
  let ep1 :=
    if s.falling then (if low_ < s.ep then low_ else s.ep)
    else (if high_ > s.ep then high_ else s.ep)
  let af1 :=
    if s.falling then (if low_ < s.ep then min (s.af + paf) max_af else s.af)
    else (if high_ > s.ep then min (s.af + paf) max_af else s.af)
  let sar1 :=
    if s.falling then max (high (row - 1)) (max (high (row - 2)) sarCand)
    else min (low (row - 1)) (min (low (row - 2)) sarCand)
  if reverse then
    let sar2 :=
      if tv then
        (if s.falling then min (low (row - 1)) (min (low (row - 2)) ep1)
         else max (high (row - 1)) (max (high (row - 2)) ep1))
      else ep1
    let falling2 := !s.falling
    let ep2 := if falling2 then low_ else high_
    (⟨sar2, ep2, af0, falling2⟩, reverse)
  else
    (⟨sar1, ep1, af1, s.falling⟩, reverse)

/-- The psar loop `for row in range(2, m)` (psar.py lines 82-127), producing
the output rows for `count` consecutive iterations starting at index `row`. -/
def psarRows (paf max_af af0 : ℚ) (tv : Bool) (high low : ℕ → ℚ) :
    PsarState → ℕ → ℕ → List PsarRow
  | _, _, 0 => []
  | s, row, Nat.succ k =>
      let sr := psarStep paf max_af af0 tv high low row s
      psarRowOf sr.1 sr.2 :: psarRows paf max_af af0 tv high low sr.1 (row + 1) k

/-- State reached after `k` iterations of the psar loop starting from state
`s` at index `row` (a ghost trace of the loop's mutable state). -/
def psarIter (paf max_af af0 : ℚ) (tv : Bool) (high low : ℕ → ℚ)
    (row : ℕ) (s : PsarState) : ℕ → PsarState
  | 0 => s
  | Nat.succ k =>
      (psarStep paf max_af af0 tv high low (row + k)
        (psarIter paf max_af af0 tv high low row s k)).1

/-- Initial direction and seeds (psar.py lines 61-72): direction from
`_falling` on the first two bars, `sar`/`ep` seeded from bar 0, and `sar`
overridden by `close[0]` when a close series is supplied.  Returns
`(sar, ep, falling)`. -/
def psarSeed (high low : List ℚ) (close : Option (List ℚ)) : ℚ × ℚ × Bool :=
  let falling := _falling (high.take 2) (low.take 2)
  let sar := if falling then high.getD 0 0 else low.getD 0 0
  let ep := if falling then low.getD 0 0 else high.getD 0 0
  let sar := match close with | some c => c.getD 0 0 | none => sar
  (sar, ep, falling)

/-- Seed output row for positions 0 and 1 (psar.py lines 74-78): `long` and
`short` start as all-NaN series, `reversal` as zeros, and `_af.iloc[0:2]` is
set to `af0`. -/
def psarSeedRow (af0 : ℚ) : PsarRow :=
  { long := none, short := none, af := af0, reversal := 0 }

/-- pandas `Series.shift(k)` for integer `k` (positive or negative): position
`i` of the result holds the value at position `i - k` of the input, missing
(NaN) when `i - k` is out of range. -/
def seriesShift (s : List (Option ℚ)) (k : ℤ) : List (Option ℚ) :=
  (List.range s.length).map fun i =>
    if 0 ≤ (i : ℤ) - k ∧ (i : ℤ) - k < (s.length : ℤ) then
      s.getD ((i : ℤ) - k).toNat none
    else none

/-- pandas `Series.fillna(value)`: every missing value becomes `v`. -/
def seriesFillna (s : List (Option ℚ)) (v : ℚ) : List (Option ℚ) :=
  s.map fun o => some (o.getD v)

/-- The `fill_method` kwarg of `Series.fillna(method=...)`. -/
inductive FillMethod where
  | ffill : FillMethod
  | bfill : FillMethod
deriving Repr, DecidableEq

/-- Forward-fill helper: each missing value takes the last defined value seen
so far (`last`), if any. -/
def seriesFfillAux : Option ℚ → List (Option ℚ) → List (Option ℚ)
  | _, [] => []
  | last, o :: rest =>
      let cur := match o with | some v => some v | none => last
      cur :: seriesFfillAux cur rest

/-- pandas `Series.fillna(method=...)`: forward fill propagates the last
defined value, backward fill the next defined value. -/
def seriesFillMethod (s : List (Option ℚ)) : FillMethod → List (Option ℚ)
  | FillMethod.ffill => seriesFfillAux none s
  | FillMethod.bfill => (seriesFfillAux none s.reverse).reverse

/-- The four aligned output columns of psar (psar.py lines 148-155):
`PSARl` (long), `PSARs` (short), `PSARaf` and `PSARr`. -/
structure PsarOutput where
  long : List (Option ℚ)
  short : List (Option ℚ)
  af : List (Option ℚ)
  reversal : List (Option ℚ)
deriving Repr, DecidableEq

/-- Assembles the four columns from the per-row records.  The `af` and
`reversal` series contain no missing values before the offset shift. -/
def psarOutputOf (rows : List PsarRow) : PsarOutput :=
  { long := rows.map PsarRow.long
    short := rows.map PsarRow.short
    af := rows.map fun r => some r.af
    reversal := rows.map fun r => some r.reversal }

/-- Applies the same series transformation to all four columns, as the
offset and fill blocks of psar.py (lines 130-146) do. -/
def psarMapAll (f : List (Option ℚ) → List (Option ℚ)) (o : PsarOutput) :
    PsarOutput :=
  { long := f o.long, short := f o.short, af := f o.af, reversal := f o.reversal }

/-- Shallow embedding of `psar` (psar.py lines 8-159).  The Python keyword
arguments become explicit parameters: `close` is the optional close series,
`af0Arg`/`afArg`/`maxAfArg` the optional acceleration parameters, `offset`
the (already resolved, default 0) integer offset, `fillna` the optional
`fillna` kwarg and `fillMethod` the optional `fill_method` kwarg.  Returns
`none` exactly when the Python function returns `None` from validation. -/
def psar (high low : List ℚ) (close : Option (List ℚ))
    (af0Arg afArg maxAfArg : Option ℚ) (tv : Bool)
    (offset : ℤ) (fillna : Option ℚ) (fillMethod : Option FillMethod) :
    Option PsarOutput :=
  match v_series high 1, v_series low 1 with
  | some high, some low =>
    let paf := v_pos_default afArg (1/50)
    let af0 := v_pos_default af0Arg paf
    let max_af := v_pos_default maxAfArg (1/5)
    let seed := psarSeed high low close
    let m := high.length
    let rows := List.replicate (min 2 m) (psarSeedRow af0) ++
      psarRows paf max_af af0 tv (fun i => high.getD i 0) (fun i => low.getD i 0)
        ⟨seed.1, seed.2.1, af0, seed.2.2⟩ 2 (m - 2)
    let out := psarOutputOf rows
    let out := if offset ≠ 0 then psarMapAll (fun s => seriesShift s offset) out else out
    let out := match fillna with
      | some v => psarMapAll (fun s => seriesFillna s v) out
      | none => out
    let out := match fillMethod with
      | some fm => psarMapAll (fun s => seriesFillMethod s fm) out
      | none => out
    some out
  | _, _ => none

/-- Ghost state trace for a run of `psar`: the state of the loop after the
steps at indices `2, ..., i` have committed (so index `1` is the seeded
initial state, and for `i ≥ 2` this is the state "after step i's update").
Parameters are the already-resolved `paf`, `af0`, `max_af`. -/
def psarStateAfter (high low : List ℚ) (close : Option (List ℚ))
    (paf af0 max_af : ℚ) (tv : Bool) (i : ℕ) : PsarState :=
  let seed := psarSeed high low close
  psarIter paf max_af af0 tv (fun t => high.getD t 0) (fun t => low.getD t 0)
    2 ⟨seed.1, seed.2.1, af0, seed.2.2⟩ (i - 1)

/-- Embedding of the offset block of `brar` (brar.py lines 64-67), parametric
in the computed pre-offset `ar` and `br` series:
```
if offset != 0:
    ar = ar.shift(offset)
    br = ar.shift(offset)
```
Note the second line shifts the rebound `ar`, not `br`.  Returns the pair
`(ar, br)` that the surrounding function places in its output frame. -/
def brarApplyOffset (ar br : List (Option ℚ)) (offset : ℤ) :
    List (Option ℚ) × List (Option ℚ) :=
  if offset ≠ 0 then
    let ar := seriesShift ar offset
    let br := seriesShift ar offset
    (ar, br)
  else
    (ar, br)

/-! Infrastructure lemmas about the loop combinators. -/

/-- Helper: the loop produces one row per iteration. -/
theorem psarRows_length (paf max_af af0 : ℚ) (tv : Bool) (high low : ℕ → ℚ) :
    ∀ (count row : ℕ) (s : PsarState),
      (psarRows paf max_af af0 tv high low s row count).length = count := by
  intro count
  induction count with
  | zero => intro row s; rfl
  | succ k ih => intro row s; simp [psarRows, ih]

/-- Helper: unrolling the state trace from the front. -/
theorem psarIter_succ_shift (paf max_af af0 : ℚ) (tv : Bool) (high low : ℕ → ℚ) :
    ∀ (k row : ℕ) (s : PsarState),
      psarIter paf max_af af0 tv high low (row + 1)
        (psarStep paf max_af af0 tv high low row s).1 k =
      psarIter paf max_af af0 tv high low row s (k + 1) := by
  intro k
  induction k with
  | zero => intro row s; simp [psarIter]
  | succ k ih =>
      intro row s
      have harith : row + 1 + k = row + (k + 1) := by omega
      simp only [psarIter, ih, harith]

/-- Helper: the k-th produced row is determined by the state trace. -/
theorem psarRows_getElem? (paf max_af af0 : ℚ) (tv : Bool) (high low : ℕ → ℚ) :
    ∀ (count k row : ℕ) (s : PsarState), k < count →
      (psarRows paf max_af af0 tv high low s row count)[k]? =
        some (psarRowOf
          (psarIter paf max_af af0 tv high low row s (k + 1))
          (psarStep paf max_af af0 tv high low (row + k)
            (psarIter paf max_af af0 tv high low row s k)).2) := by
  intro count
  induction count with
  | zero => intro k row s h; omega
  | succ c ih =>
      intro k row s h
      cases k with
      | zero => simp [psarRows, psarIter]
      | succ k =>
          have hk : k < c := by omega
          have harith : row + 1 + k = row + (k + 1) := by omega
          simp only [psarRows, List.getElem?_cons_succ]
          rw [ih k (row + 1) (psarStep paf max_af af0 tv high low row s).1 hk,
            psarIter_succ_shift, psarIter_succ_shift, harith]

/-- Helper: a nonempty series passes the minimum-length-1 validation. -/
theorem v_series_of_ne_nil (s : List ℚ) (h : s ≠ []) : v_series s 1 = some s := by
  have : 1 ≤ s.length := List.length_pos.mpr h
  simp [v_series, this]

/-- Helper: unfolding psar on validated input with offset 0 and no fill. -/
theorem psar_eq_core (high low : List ℚ) (close : Option (List ℚ))
    (af0Arg afArg maxAfArg : Option ℚ) (tv : Bool)
    (hhi : high ≠ []) (hlo : low ≠ []) :
    psar high low close af0Arg afArg maxAfArg tv 0 none none =
      some (psarOutputOf (List.replicate (min 2 high.length)
          (psarSeedRow (v_pos_default af0Arg (v_pos_default afArg (1/50)))) ++
        psarRows (v_pos_default afArg (1/50)) (v_pos_default maxAfArg (1/5))
          (v_pos_default af0Arg (v_pos_default afArg (1/50))) tv
          (fun i => high.getD i 0) (fun i => low.getD i 0)
          ⟨(psarSeed high low close).1, (psarSeed high low close).2.1,
            v_pos_default af0Arg (v_pos_default afArg (1/50)),
            (psarSeed high low close).2.2⟩ 2 (high.length - 2))) := by
  rw [psar, v_series_of_ne_nil high hhi, v_series_of_ne_nil low hlo]
  simp

/-- Helper: when a step signals a reversal, the acceleration factor resets
to `af0`, the direction flips, and the extreme point reseeds from the current
bar (psar.py lines 105-116). -/
theorem psarStep_of_reverse (paf max_af af0 : ℚ) (tv : Bool) (high low : ℕ → ℚ)
    (row : ℕ) (s : PsarState)
    (h : (psarStep paf max_af af0 tv high low row s).2 = true) :
    (psarStep paf max_af af0 tv high low row s).1.af = af0 ∧
    (psarStep paf max_af af0 tv high low row s).1.falling = !s.falling ∧
    (psarStep paf max_af af0 tv high low row s).1.ep =
      (if (psarStep paf max_af af0 tv high low row s).1.falling then low row
       else high row) := by
  obtain ⟨sar, ep, af, falling⟩ := s
  cases falling <;>
    (simp only [psarStep] at h ⊢; split_ifs at h ⊢ <;> simp_all <;> linarith)

/-- Helper: one loop step keeps the acceleration factor within
`[af0, max_af]`. -/
theorem psarStep_af_bounds (paf max_af af0 : ℚ) (tv : Bool) (high low : ℕ → ℚ)
    (row : ℕ) (s : PsarState)
    (h0 : af0 ≤ s.af) (h1 : s.af ≤ max_af) (hpaf : 0 ≤ paf) (h2 : af0 ≤ max_af) :
    af0 ≤ (psarStep paf max_af af0 tv high low row s).1.af ∧
      (psarStep paf max_af af0 tv high low row s).1.af ≤ max_af := by
  obtain ⟨sar, ep, af, falling⟩ := s
  simp only [PsarState.af] at h0 h1
  cases falling <;>
    (simp only [psarStep]
     split_ifs <;> simp_all [le_min_iff] <;> linarith)


/-- Claim C4: initialization computes `up = high[1] - high[0]` and
`dn = low[0] - low[1]`; the initial direction is falling iff
`dn > up ∧ dn > 0`, seeding `sar = high[0], ep = low[0]` when falling and
`sar = low[0], ep = high[0]` otherwise; in particular for `high = [10, 11]`,
`low = [9, 8]` (where `dn = up = 1`) the direction is rising with `sar = 9`
and `ep = 10`. -/
theorem psar_initialization_spec (h0 h1 l0 l1 : ℚ) (hrest lrest : List ℚ) :
    psarSeed (h0 :: h1 :: hrest) (l0 :: l1 :: lrest) none =
      (if l0 - l1 > h1 - h0 ∧ l0 - l1 > 0 then (h0, l0, true)
       else (l0, h0, false)) ∧
    psarSeed [10, 11] [9, 8] none = (9, 10, false) := by
  have hgen : ∀ (a b c d : ℚ) (r1 r2 : List ℚ),
      psarSeed (a :: b :: r1) (c :: d :: r2) none =
        (if c - d > b - a ∧ c - d > 0 then (a, c, true) else (c, a, false)) := by
    intro a b c d r1 r2
    by_cases hc : c - d > b - a ∧ c - d > 0
    · have hne : c - d ≠ 0 := ne_of_gt hc.2
      simp [psarSeed, _falling, List.getD, zero, hc, hc.1, hc.2, sub_pos.mp hc.2, hne]
    · rw [if_neg hc]
      rcases not_and_or.mp hc with h | h
      · simp [psarSeed, _falling, List.getD, zero, h]
      · have hnd : ¬ (d < c) := fun hlt => h (sub_pos.mpr hlt)
        simp [psarSeed, _falling, List.getD, zero, hnd, lt_irrefl]
  refine ⟨hgen h0 h1 l0 l1 hrest lrest, ?_⟩
  rw [hgen 10 11 9 8 [] []]
  norm_num

/-- Claim C6, counterexample: the claim says psar fails on inputs with fewer
than 2 aligned points, but the single-bar input `high = [10]`, `low = [9]`
passes validation (`v_series` is called with minimum length 1, psar.py
line 47) and psar returns a result instead of failing. -/
theorem psar_short_input_accepted :
    (psar [10] [9] none none none none false 0 none none).isSome = true := by
  rfl

/-- Claim C6, amended: psar reports a validation failure (returns `None`)
exactly when `high` or `low` is empty; single-point inputs are accepted and
no length-mismatch check is performed before the recurrence. -/
theorem psar_none_iff_empty (high low : List ℚ) (close : Option (List ℚ))
    (p1 p2 p3 : Option ℚ) (tv : Bool) (offset : ℤ) (f : Option ℚ)
    (fm : Option FillMethod) :
    psar high low close p1 p2 p3 tv offset f fm = none ↔
      high = [] ∨ low = [] := by
  rcases high with _ | ⟨h, hs⟩ <;> rcases low with _ | ⟨l, ls⟩ <;>
    simp [psar, v_series]

/-- Claim C7, counterexample: the claim says psar fails with InvalidParameter
when `af0 > max_af`, but the call with `af0 = 1/2 > max_af = 1/5` (both
positive) succeeds: no `af0 ≤ max_af` comparison exists anywhere in psar. -/
theorem psar_invalid_params_accepted :
    (0 : ℚ) < 1/2 ∧ (0 : ℚ) < 1/5 ∧ ¬ ((1/2 : ℚ) ≤ 1/5) ∧
    (psar [10, 11, 12] [9, 10, 11] none (some (1/2)) none (some (1/5)) false 0
      none none).isSome = true := by
  refine ⟨by norm_num, by norm_num, by norm_num, rfl⟩

/-- Claim C7, amended: psar never fails because of the acceleration
parameters: for every nonempty `high`/`low` and arbitrary `af0`/`af`/`max_af`
arguments (including non-positive values, which the `v_pos_default` resolver
silently replaces by defaults) the call returns a result. -/
theorem psar_never_fails_on_params (high low : List ℚ) (close : Option (List ℚ))
    (p1 p2 p3 : Option ℚ) (tv : Bool) (offset : ℤ) (f : Option ℚ)
    (fm : Option FillMethod) (hhi : high ≠ []) (hlo : low ≠ []) :
    (psar high low close p1 p2 p3 tv offset f fm).isSome = true := by
  rw [psar, v_series_of_ne_nil high hhi, v_series_of_ne_nil low hlo]
  rfl

/-- Witness for C7 amended at a concrete input with a negative `af0`. -/
theorem psar_never_fails_on_params_witness :
    (psar [1] [1] none (some (-1)) none none true 0 none none).isSome = true :=
  psar_never_fails_on_params [1] [1] none (some (-1)) none none true 0 none none
    (by simp) (by simp)

/-- Claim C8, counterexample: the claim says an omitted `af` step defaults to
`af0`; but with `af0 = 1/10` supplied and `af` omitted, the recorded
acceleration factor after the first extreme-point update is
`1/10 + 1/50 = 3/25`, not `1/10 + 1/10`: the step defaulted to the constant
`0.02` (psar.py line 54), not to `af0`. -/
theorem psar_af_default_counterexample :
    (psar [1, 2, 3] [0, 1, 2] none (some (1/10)) none none false 0 none
      none).map (fun o => o.af.getD 2 none) = some (some (3/25)) ∧
    (3/25 : ℚ) ≠ 1/10 + 1/10 := by
  constructor
  · norm_num [psar, v_series, v_pos_default, psarSeed, _falling, zero, psarRows,
      psarStep, psarRowOf, psarSeedRow, psarOutputOf, List.getD, List.replicate]
  · norm_num

/-- Claim C8, amended: when the `af` step argument is not supplied it
defaults to the constant `0.02 = 1/50` regardless of `af0`: the call with
`af` omitted is identical to the call with `af = 1/50`.  (It is `af0` that
defaults to the resolved `af`, psar.py lines 54-55, not the reverse.) -/
theorem psar_af_step_default (high low : List ℚ) (close : Option (List ℚ))
    (af0Arg maxAfArg : Option ℚ) (tv : Bool) (offset : ℤ) (f : Option ℚ)
    (fm : Option FillMethod) :
    psar high low close af0Arg none maxAfArg tv offset f fm =
      psar high low close af0Arg (some (1/50)) maxAfArg tv offset f fm := by
  unfold psar
  rw [(by norm_num [v_pos_default] :
    (v_pos_default (some (1/50)) (1/50) : ℚ) = v_pos_default none (1/50))]

/-- Claim C9: in brar's offset block (brar.py lines 64-67) the returned BR
column is produced by shifting the first output (the already-shifted AR)
rather than shifting BR itself: for every nonzero offset the returned BR
equals the shift of the returned AR, and on a concrete input it differs from
the independently shifted BR sequence. -/
theorem brar_offset_reuses_ar :
    (∀ (ar br : List (Option ℚ)) (k : ℤ), k ≠ 0 →
      (brarApplyOffset ar br k).2 =
        seriesShift (brarApplyOffset ar br k).1 k) ∧
    (brarApplyOffset [some 1, some 2] [some 3, some 4] 1).2 ≠
      seriesShift [some 3, some 4] 1 := by
  constructor
  · intro ar br k hk
    simp [brarApplyOffset, hk]
  · norm_num [brarApplyOffset, seriesShift, List.getD, List.range_succ]
    simp

/-- Witness for C9 at a concrete input and offset. -/
theorem brar_offset_reuses_ar_witness :
    (brarApplyOffset [some 5] [some 6] 2).2 =
      seriesShift (brarApplyOffset [some 5] [some 6] 2).1 2 :=
  brar_offset_reuses_ar.1 [some 5] [some 6] 2 (by norm_num)


/-- Helper: for positive explicit parameters and offset 0 with no fill, psar
reduces to the seed rows followed by the recurrence rows. -/
theorem psar_eq_core_pos (high low : List ℚ) (close : Option (List ℚ))
    (a0 a m : ℚ) (tv : Bool)
    (ha0 : 0 < a0) (ha : 0 < a) (hm : 0 < m)
    (hhi : high ≠ []) (hlo : low ≠ []) :
    psar high low close (some a0) (some a) (some m) tv 0 none none =
      some (psarOutputOf (List.replicate (min 2 high.length) (psarSeedRow a0) ++
        psarRows a m a0 tv (fun i => high.getD i 0) (fun i => low.getD i 0)
          ⟨(psarSeed high low close).1, (psarSeed high low close).2.1, a0,
            (psarSeed high low close).2.2⟩ 2 (high.length - 2))) := by
  rw [psar_eq_core high low close (some a0) (some a) (some m) tv hhi hlo]
  rw [(by simp [v_pos_default, ha] : v_pos_default (some a) (1/50) = a)]
  rw [(by simp [v_pos_default, ha0] : v_pos_default (some a0) a = a0)]
  rw [(by simp [v_pos_default, hm] : v_pos_default (some m) (1/5) = m)]

/-- Claim C10: for every valid input of length at least 2, with no offset and
no fill, output positions 0 and 1 have `long` and `short` missing while
`reversal` is 0 and the recorded acceleration factor equals `af0`. -/
theorem psar_seed_positions (high low : List ℚ) (close : Option (List ℚ))
    (a0 a m : ℚ) (tv : Bool)
    (ha0 : 0 < a0) (ha : 0 < a) (hm : 0 < m)
    (hlen : low.length = high.length) (h2 : 2 ≤ high.length)
    (out : PsarOutput)
    (hout : psar high low close (some a0) (some a) (some m) tv 0 none none =
      some out) :
    out.long.getD 0 none = none ∧ out.long.getD 1 none = none ∧
    out.short.getD 0 none = none ∧ out.short.getD 1 none = none ∧
    out.reversal.getD 0 none = some 0 ∧ out.reversal.getD 1 none = some 0 ∧
    out.af.getD 0 none = some a0 ∧ out.af.getD 1 none = some a0 := by
  have hhi : high ≠ [] := by
    intro h
    rw [h] at h2
    simp at h2
  have hlo : low ≠ [] := by
    intro h
    rw [h] at hlen
    simp at hlen
    omega
  rw [psar_eq_core_pos high low close a0 a m tv ha0 ha hm hhi hlo] at hout
  have hmin : min 2 high.length = 2 := by omega
  rw [hmin] at hout
  have hx := Option.some.inj hout
  subst hx
  simp [psarOutputOf, psarSeedRow, List.replicate, List.getD]

/-- Claim C1: for every valid input (aligned, length at least 3) and valid
positive parameters, at every computed step `2 ≤ i < n` exactly one of
`long[i]`/`short[i]` is defined: `short[i]` carries the committed `sar`
exactly when the direction flag `falling` is true after step i's update, and
`long[i]` carries it otherwise (the two stated equations determine both
columns completely). -/
theorem psar_long_short_exclusive (high low : List ℚ) (close : Option (List ℚ))
    (a0 a m : ℚ) (tv : Bool)
    (ha0 : 0 < a0) (ha : 0 < a) (hm : 0 < m)
    (hlen : low.length = high.length) (h3 : 3 ≤ high.length)
    (out : PsarOutput)
    (hout : psar high low close (some a0) (some a) (some m) tv 0 none none =
      some out)
    (i : ℕ) (h2i : 2 ≤ i) (hin : i < high.length) :
    out.short.getD i none =
      (if (psarStateAfter high low close a a0 m tv i).falling
       then some (psarStateAfter high low close a a0 m tv i).sar else none) ∧
    out.long.getD i none =
      (if (psarStateAfter high low close a a0 m tv i).falling
       then none else some (psarStateAfter high low close a a0 m tv i).sar) := by
  have hhi : high ≠ [] := by
    intro h
    rw [h] at h3
    simp at h3
  have hlo : low ≠ [] := by
    intro h
    rw [h] at hlen
    simp at hlen
    omega
  rw [psar_eq_core_pos high low close a0 a m tv ha0 ha hm hhi hlo] at hout
  have hmin : min 2 high.length = 2 := by omega
  rw [hmin] at hout
  have hx := Option.some.inj hout
  subst hx
  have hk : i - 2 < high.length - 2 := by omega
  have hrows := psarRows_getElem? a m a0 tv
    (fun t => high.getD t 0) (fun t => low.getD t 0) (high.length - 2) (i - 2) 2
    ⟨(psarSeed high low close).1, (psarSeed high low close).2.1, a0,
      (psarSeed high low close).2.2⟩ hk
  have hlen2 : (List.replicate 2 (psarSeedRow a0)).length = 2 :=
    List.length_replicate 2 _
  have hle : (List.replicate 2 (psarSeedRow a0)).length ≤ i := by omega
  have h12 : i - 2 + 1 = i - 1 := by omega
  have hst : psarStateAfter high low close a a0 m tv i =
      psarIter a m a0 tv (fun t => high.getD t 0) (fun t => low.getD t 0) 2
        ⟨(psarSeed high low close).1, (psarSeed high low close).2.1, a0,
          (psarSeed high low close).2.2⟩ (i - 2 + 1) := by
    rw [h12]
    rfl
  constructor
  · rw [show PsarOutput.short (psarOutputOf (List.replicate 2 (psarSeedRow a0) ++
        psarRows a m a0 tv (fun t => high.getD t 0) (fun t => low.getD t 0)
          ⟨(psarSeed high low close).1, (psarSeed high low close).2.1, a0,
            (psarSeed high low close).2.2⟩ 2 (high.length - 2))) =
        (List.replicate 2 (psarSeedRow a0) ++
          psarRows a m a0 tv (fun t => high.getD t 0) (fun t => low.getD t 0)
            ⟨(psarSeed high low close).1, (psarSeed high low close).2.1, a0,
              (psarSeed high low close).2.2⟩ 2 (high.length - 2)).map
          PsarRow.short from rfl]
    rw [List.getD_eq_getElem?_getD, List.getElem?_map,
      List.getElem?_append_right hle, hlen2, hrows, hst]
    simp [psarRowOf]
  · rw [show PsarOutput.long (psarOutputOf (List.replicate 2 (psarSeedRow a0) ++
        psarRows a m a0 tv (fun t => high.getD t 0) (fun t => low.getD t 0)
          ⟨(psarSeed high low close).1, (psarSeed high low close).2.1, a0,
            (psarSeed high low close).2.2⟩ 2 (high.length - 2))) =
        (List.replicate 2 (psarSeedRow a0) ++
          psarRows a m a0 tv (fun t => high.getD t 0) (fun t => low.getD t 0)
            ⟨(psarSeed high low close).1, (psarSeed high low close).2.1, a0,
              (psarSeed high low close).2.2⟩ 2 (high.length - 2)).map
          PsarRow.long from rfl]
    rw [List.getD_eq_getElem?_getD, List.getElem?_map,
      List.getElem?_append_right hle, hlen2, hrows, hst]
    simp [psarRowOf]

/-- Helper: the recorded acceleration factor of every row produced by the
loop stays within `[af0, max_af]` when it starts there. -/
theorem psarRows_af_mem (paf max_af af0 : ℚ) (tv : Bool) (high low : ℕ → ℚ)
    (hpaf : 0 ≤ paf) (h2 : af0 ≤ max_af) :
    ∀ (count row : ℕ) (s : PsarState), af0 ≤ s.af → s.af ≤ max_af →
      ∀ r ∈ psarRows paf max_af af0 tv high low s row count,
        af0 ≤ r.af ∧ r.af ≤ max_af := by
  intro count
  induction count with
  | zero =>
      intro row s _ _ r hr
      simp [psarRows] at hr
  | succ c ih =>
      intro row s hs0 hs1 r hr
      have hb := psarStep_af_bounds paf max_af af0 tv high low row s hs0 hs1 hpaf h2
      simp only [psarRows, List.mem_cons] at hr
      rcases hr with rfl | hr
      · exact hb
      · exact ih (row + 1) _ hb.1 hb.2 r hr

/-- Claim C2: for every valid input and positive parameters with
`af0 ≤ max_af`, every entry of the recorded acceleration-factor column is a
defined value `v` with `af0 ≤ v ≤ max_af`. -/
theorem psar_af_bounded (high low : List ℚ) (close : Option (List ℚ))
    (a0 a m : ℚ) (tv : Bool)
    (ha0 : 0 < a0) (ha : 0 < a) (ham : a0 ≤ m)
    (hlen : low.length = high.length) (h2 : 2 ≤ high.length)
    (out : PsarOutput)
    (hout : psar high low close (some a0) (some a) (some m) tv 0 none none =
      some out) :
    ∀ x ∈ out.af, ∃ v, x = some v ∧ a0 ≤ v ∧ v ≤ m := by
  have hm : 0 < m := lt_of_lt_of_le ha0 ham
  have hhi : high ≠ [] := by
    intro h
    rw [h] at h2
    simp at h2
  have hlo : low ≠ [] := by
    intro h
    rw [h] at hlen
    simp at hlen
    omega
  rw [psar_eq_core_pos high low close a0 a m tv ha0 ha hm hhi hlo] at hout
  have hx := Option.some.inj hout
  subst hx
  intro x hx
  simp only [psarOutputOf, List.mem_map, List.mem_append] at hx
  obtain ⟨r, hr | hr, rfl⟩ := hx
  · have hr' := List.eq_of_mem_replicate hr
    subst hr'
    exact ⟨a0, rfl, le_refl a0, ham⟩
  · have hb := psarRows_af_mem a m a0 tv
      (fun t => high.getD t 0) (fun t => low.getD t 0) (le_of_lt ha) ham
      (high.length - 2) 2
      ⟨(psarSeed high low close).1, (psarSeed high low close).2.1, a0,
        (psarSeed high low close).2.2⟩ (le_refl a0) ham r hr
    exact ⟨r.af, rfl, hb.1, hb.2⟩

/-- Claim C3: at every computed step the reversal column holds 0 or 1, and
when it holds 1 the recorded acceleration factor equals `af0`, the direction
flag after step i is the negation of the flag after step i-1, and the extreme
point is reseeded to `low[i]` if the new direction is falling, else
`high[i]`. -/
theorem psar_reversal_flag_spec (high low : List ℚ) (close : Option (List ℚ))
    (a0 a m : ℚ) (tv : Bool)
    (ha0 : 0 < a0) (ha : 0 < a) (hm : 0 < m)
    (hlen : low.length = high.length) (h3 : 3 ≤ high.length)
    (out : PsarOutput)
    (hout : psar high low close (some a0) (some a) (some m) tv 0 none none =
      some out)
    (i : ℕ) (h2i : 2 ≤ i) (hin : i < high.length) :
    ∃ r, out.reversal.getD i none = some r ∧ (r = 0 ∨ r = 1) ∧
      (r = 1 →
        out.af.getD i none = some a0 ∧
        (psarStateAfter high low close a a0 m tv i).falling
          = !((psarStateAfter high low close a a0 m tv (i - 1)).falling) ∧
        (psarStateAfter high low close a a0 m tv i).ep =
          (if (psarStateAfter high low close a a0 m tv i).falling
           then low.getD i 0 else high.getD i 0)) := by
  have hhi : high ≠ [] := by
    intro h
    rw [h] at h3
    simp at h3
  have hlo : low ≠ [] := by
    intro h
    rw [h] at hlen
    simp at hlen
    omega
  rw [psar_eq_core_pos high low close a0 a m tv ha0 ha hm hhi hlo] at hout
  have hmin : min 2 high.length = 2 := by omega
  rw [hmin] at hout
  have hx := Option.some.inj hout
  subst hx
  have hk : i - 2 < high.length - 2 := by omega
  have hrows := psarRows_getElem? a m a0 tv
    (fun t => high.getD t 0) (fun t => low.getD t 0) (high.length - 2) (i - 2) 2
    ⟨(psarSeed high low close).1, (psarSeed high low close).2.1, a0,
      (psarSeed high low close).2.2⟩ hk
  have hlen2 : (List.replicate 2 (psarSeedRow a0)).length = 2 :=
    List.length_replicate 2 _
  have hle : (List.replicate 2 (psarSeedRow a0)).length ≤ i := by omega
  have h12 : i - 2 + 1 = i - 1 := by omega
  have hst : psarStateAfter high low close a a0 m tv i =
      psarIter a m a0 tv (fun t => high.getD t 0) (fun t => low.getD t 0) 2
        ⟨(psarSeed high low close).1, (psarSeed high low close).2.1, a0,
          (psarSeed high low close).2.2⟩ (i - 2 + 1) := by
    rw [h12]
    rfl
  have hprev : psarStateAfter high low close a a0 m tv (i - 1) =
      psarIter a m a0 tv (fun t => high.getD t 0) (fun t => low.getD t 0) 2
        ⟨(psarSeed high low close).1, (psarSeed high low close).2.1, a0,
          (psarSeed high low close).2.2⟩ (i - 2) := by
    have h11 : i - 1 - 1 = i - 2 := by omega
    simp only [psarStateAfter, h11]
  have hrev_col : PsarOutput.reversal (psarOutputOf
      (List.replicate 2 (psarSeedRow a0) ++
        psarRows a m a0 tv (fun t => high.getD t 0) (fun t => low.getD t 0)
          ⟨(psarSeed high low close).1, (psarSeed high low close).2.1, a0,
            (psarSeed high low close).2.2⟩ 2 (high.length - 2))) =
      (List.replicate 2 (psarSeedRow a0) ++
        psarRows a m a0 tv (fun t => high.getD t 0) (fun t => low.getD t 0)
          ⟨(psarSeed high low close).1, (psarSeed high low close).2.1, a0,
            (psarSeed high low close).2.2⟩ 2 (high.length - 2)).map
        (fun r => some r.reversal) := rfl
  have haf_col : PsarOutput.af (psarOutputOf
      (List.replicate 2 (psarSeedRow a0) ++
        psarRows a m a0 tv (fun t => high.getD t 0) (fun t => low.getD t 0)
          ⟨(psarSeed high low close).1, (psarSeed high low close).2.1, a0,
            (psarSeed high low close).2.2⟩ 2 (high.length - 2))) =
      (List.replicate 2 (psarSeedRow a0) ++
        psarRows a m a0 tv (fun t => high.getD t 0) (fun t => low.getD t 0)
          ⟨(psarSeed high low close).1, (psarSeed high low close).2.1, a0,
            (psarSeed high low close).2.2⟩ 2 (high.length - 2)).map
        (fun r => some r.af) := rfl
  refine ⟨if (psarStep a m a0 tv (fun t => high.getD t 0) (fun t => low.getD t 0)
      (2 + (i - 2))
      (psarIter a m a0 tv (fun t => high.getD t 0) (fun t => low.getD t 0) 2
        ⟨(psarSeed high low close).1, (psarSeed high low close).2.1, a0,
          (psarSeed high low close).2.2⟩ (i - 2))).2 then 1 else 0, ?_, ?_, ?_⟩
  · rw [hrev_col, List.getD_eq_getElem?_getD, List.getElem?_map,
      List.getElem?_append_right hle, hlen2, hrows]
    simp [psarRowOf]
  · split
    · right
      rfl
    · left
      rfl
  · intro h1
    have hrev : (psarStep a m a0 tv (fun t => high.getD t 0)
        (fun t => low.getD t 0) (2 + (i - 2))
        (psarIter a m a0 tv (fun t => high.getD t 0) (fun t => low.getD t 0) 2
          ⟨(psarSeed high low close).1, (psarSeed high low close).2.1, a0,
            (psarSeed high low close).2.2⟩ (i - 2))).2 = true := by
      by_contra hcon
      rw [Bool.not_eq_true] at hcon
      rw [hcon] at h1
      norm_num at h1
    have hstep := psarStep_of_reverse a m a0 tv
      (fun t => high.getD t 0) (fun t => low.getD t 0) (2 + (i - 2))
      (psarIter a m a0 tv (fun t => high.getD t 0) (fun t => low.getD t 0) 2
        ⟨(psarSeed high low close).1, (psarSeed high low close).2.1, a0,
          (psarSeed high low close).2.2⟩ (i - 2)) hrev
    have h2i' : 2 + (i - 2) = i := by omega
    refine ⟨?_, ?_, ?_⟩
    · rw [haf_col, List.getD_eq_getElem?_getD, List.getElem?_map,
        List.getElem?_append_right hle, hlen2, hrows]
      exact congrArg some hstep.1
    · rw [hst, hprev]
      exact hstep.2.1
    · rw [hst]
      have hiter : psarIter a m a0 tv (fun t => high.getD t 0)
          (fun t => low.getD t 0) 2
          ⟨(psarSeed high low close).1, (psarSeed high low close).2.1, a0,
            (psarSeed high low close).2.2⟩ (i - 2 + 1) =
          (psarStep a m a0 tv (fun t => high.getD t 0) (fun t => low.getD t 0)
            (2 + (i - 2))
            (psarIter a m a0 tv (fun t => high.getD t 0) (fun t => low.getD t 0) 2
              ⟨(psarSeed high low close).1, (psarSeed high low close).2.1, a0,
                (psarSeed high low close).2.2⟩ (i - 2))).1 := rfl
      rw [hiter, hstep.2.2]
      simp only [h2i']


/-- Witness for C10 at a concrete two-bar input. -/
theorem psar_seed_positions_witness :
    (⟨[none, none], [none, none], [some (1/50), some (1/50)],
      [some 0, some 0]⟩ : PsarOutput).long.getD 0 none = none ∧
    (⟨[none, none], [none, none], [some (1/50), some (1/50)],
      [some 0, some 0]⟩ : PsarOutput).long.getD 1 none = none ∧
    (⟨[none, none], [none, none], [some (1/50), some (1/50)],
      [some 0, some 0]⟩ : PsarOutput).short.getD 0 none = none ∧
    (⟨[none, none], [none, none], [some (1/50), some (1/50)],
      [some 0, some 0]⟩ : PsarOutput).short.getD 1 none = none ∧
    (⟨[none, none], [none, none], [some (1/50), some (1/50)],
      [some 0, some 0]⟩ : PsarOutput).reversal.getD 0 none = some 0 ∧
    (⟨[none, none], [none, none], [some (1/50), some (1/50)],
      [some 0, some 0]⟩ : PsarOutput).reversal.getD 1 none = some 0 ∧
    (⟨[none, none], [none, none], [some (1/50), some (1/50)],
      [some 0, some 0]⟩ : PsarOutput).af.getD 0 none = some (1/50) ∧
    (⟨[none, none], [none, none], [some (1/50), some (1/50)],
      [some 0, some 0]⟩ : PsarOutput).af.getD 1 none = some (1/50) :=
  psar_seed_positions [1, 2] [0, 1] none (1/50) (1/50) (1/5) false
    (by norm_num) (by norm_num) (by norm_num) (by norm_num) (by norm_num)
    ⟨[none, none], [none, none], [some (1/50), some (1/50)], [some 0, some 0]⟩
    (by norm_num [psar, v_series, v_pos_default, psarSeed, _falling, zero,
      psarRows, psarStep, psarRowOf, psarSeedRow, psarOutputOf, List.getD,
      List.replicate])

/-- Witness for C1 at a concrete three-bar input and step 2. -/
theorem psar_long_short_exclusive_witness :
    (⟨[none, none, some 1], [none, none, none],
      [some (1/50), some (1/50), some (1/25)], [some 0, some 0, some 0]⟩ :
        PsarOutput).short.getD 2 none =
      (if (psarStateAfter [2, 3, 4] [1, 2, 3] none (1/50) (1/50) (1/5)
          false 2).falling
       then some (psarStateAfter [2, 3, 4] [1, 2, 3] none (1/50) (1/50) (1/5)
          false 2).sar
       else none) ∧
    (⟨[none, none, some 1], [none, none, none],
      [some (1/50), some (1/50), some (1/25)], [some 0, some 0, some 0]⟩ :
        PsarOutput).long.getD 2 none =
      (if (psarStateAfter [2, 3, 4] [1, 2, 3] none (1/50) (1/50) (1/5)
          false 2).falling
       then none
       else some (psarStateAfter [2, 3, 4] [1, 2, 3] none (1/50) (1/50) (1/5)
          false 2).sar) :=
  psar_long_short_exclusive [2, 3, 4] [1, 2, 3] none (1/50) (1/50) (1/5) false
    (by norm_num) (by norm_num) (by norm_num) (by norm_num) (by norm_num)
    ⟨[none, none, some 1], [none, none, none],
      [some (1/50), some (1/50), some (1/25)], [some 0, some 0, some 0]⟩
    (by norm_num [psar, v_series, v_pos_default, psarSeed, _falling, zero,
      psarRows, psarStep, psarRowOf, psarSeedRow, psarOutputOf, List.getD,
      List.replicate])
    2 (by norm_num) (by norm_num)

/-- Witness for C2 at a concrete two-bar input and a concrete column entry. -/
theorem psar_af_bounded_witness :
    ∃ v, (some (1/50 : ℚ)) = some v ∧ (1/50 : ℚ) ≤ v ∧ v ≤ 1/5 :=
  psar_af_bounded [1, 2] [0, 1] none (1/50) (1/50) (1/5) false
    (by norm_num) (by norm_num) (by norm_num) (by norm_num) (by norm_num)
    ⟨[none, none], [none, none], [some (1/50), some (1/50)], [some 0, some 0]⟩
    (by norm_num [psar, v_series, v_pos_default, psarSeed, _falling, zero,
      psarRows, psarStep, psarRowOf, psarSeedRow, psarOutputOf, List.getD,
      List.replicate])
    (some (1/50)) (by simp)

/-- Witness for C3 at a concrete three-bar input and step 2. -/
theorem psar_reversal_flag_spec_witness :
    ∃ r, (⟨[none, none, some 1], [none, none, none],
      [some (1/50), some (1/50), some (1/25)], [some 0, some 0, some 0]⟩ :
        PsarOutput).reversal.getD 2 none = some r ∧ (r = 0 ∨ r = 1) ∧
      (r = 1 →
        (⟨[none, none, some 1], [none, none, none],
          [some (1/50), some (1/50), some (1/25)],
          [some 0, some 0, some 0]⟩ : PsarOutput).af.getD 2 none =
            some (1/50) ∧
        (psarStateAfter [2, 3, 4] [1, 2, 3] none (1/50) (1/50) (1/5)
            false 2).falling
          = !((psarStateAfter [2, 3, 4] [1, 2, 3] none (1/50) (1/50) (1/5)
            false (2 - 1)).falling) ∧
        (psarStateAfter [2, 3, 4] [1, 2, 3] none (1/50) (1/50) (1/5)
            false 2).ep =
          (if (psarStateAfter [2, 3, 4] [1, 2, 3] none (1/50) (1/50) (1/5)
              false 2).falling
           then ([1, 2, 3] : List ℚ).getD 2 0
           else ([2, 3, 4] : List ℚ).getD 2 0)) :=
  psar_reversal_flag_spec [2, 3, 4] [1, 2, 3] none (1/50) (1/50) (1/5) false
    (by norm_num) (by norm_num) (by norm_num) (by norm_num) (by norm_num)
    ⟨[none, none, some 1], [none, none, none],
      [some (1/50), some (1/50), some (1/25)], [some 0, some 0, some 0]⟩
    (by norm_num [psar, v_series, v_pos_default, psarSeed, _falling, zero,
      psarRows, psarStep, psarRowOf, psarSeedRow, psarOutputOf, List.getD,
      List.replicate])
    2 (by norm_num) (by norm_num)



/-- Helper: in the rising branch, when the current low does not cross the
candidate stop, one loop step clamps the stop and keeps the direction. -/
theorem psarStep_rising (paf max_af af0 : ℚ) (tv : Bool) (H L : ℕ → ℚ)
    (row : ℕ) (s : PsarState) (hfall : s.falling = false)
    (hno : ¬ (L row < s.sar + s.af * (s.ep - s.sar))) :
    psarStep paf max_af af0 tv H L row s =
      (⟨min (L (row - 1)) (min (L (row - 2)) (s.sar + s.af * (s.ep - s.sar))),
        (if H row > s.ep then H row else s.ep),
        (if H row > s.ep then min (s.af + paf) max_af else s.af),
        false⟩, false) := by
  simp only [psarStep, hfall]
  simp [hno]



/-- Helper for C5: with the fixed parameters `af0 = af = 0.02`,
`max_af = 0.2`, a rising-state invariant (stop below the recent low, extreme
point below the recent high) is preserved by the loop when lows and highs
strictly rise, bars satisfy `low ≤ high` and each low clears the worst-case
candidate stop `low[i-2] + max_af * (high[i-1] - low[i-2])`; all produced
rows then show no reversal and strictly increasing long stops. -/
theorem psarRows_rising_aux (H L : ℕ → ℚ) :
    ∀ (k j : ℕ) (s : PsarState),
      (∀ t, j ≤ t → t + 1 ≤ j + k + 1 → H t < H (t + 1)) →
      (∀ t, j ≤ t → t + 1 ≤ j + k + 1 → L t < L (t + 1)) →
      (∀ t, j ≤ t → t ≤ j + k + 1 → L t ≤ H t) →
      (∀ t, j ≤ t → t + 2 ≤ j + k + 1 →
        L t + (1/5) * (H (t + 1) - L t) ≤ L (t + 2)) →
      s.falling = false →
      1/50 ≤ s.af → s.af ≤ 1/5 →
      s.sar ≤ L j → s.ep ≤ H (j + 1) → s.sar ≤ s.ep →
      (∀ r ∈ psarRows (1/50) (1/5) (1/50) false H L s (j + 2) k,
        r.reversal = 0 ∧ r.short = none ∧ r.long.isSome = true) ∧
      List.Chain' (· < ·)
        ((psarRows (1/50) (1/5) (1/50) false H L s (j + 2) k).filterMap
          PsarRow.long) ∧
      (s.sar < L j → s.sar < s.ep →
        ∀ w ∈ ((psarRows (1/50) (1/5) (1/50) false H L s (j + 2) k).filterMap
          PsarRow.long).head?, s.sar < w) := by
  intro k
  induction k with
  | zero =>
      intro j s _ _ _ _ _ _ _ _ _ _
      refine ⟨?_, ?_, ?_⟩
      · intro r hr
        simp [psarRows] at hr
      · simp [psarRows]
      · intro _ _ w hw
        simp [psarRows] at hw
  | succ c ih =>
      intro j s hH hL hLH hgap hfall haf0 haf1 hsar hep hsarep
      -- basic ordering facts at the head step
      have hLj1 : L j < L (j + 1) := hL j (le_refl j) (by omega)
      have hLj2 : L (j + 1) < L (j + 2) := hL (j + 1) (by omega) (by omega)
      have hHj2 : H (j + 1) < H (j + 2) := hH (j + 1) (by omega) (by omega)
      have hLHj2 : L (j + 2) ≤ H (j + 2) := hLH (j + 2) (by omega) (by omega)
      -- the candidate stop stays at or below the current low: no reversal
      have e1 : s.af * (s.ep - s.sar) ≤ (1/5) * (s.ep - s.sar) :=
        mul_le_mul_of_nonneg_right haf1 (by linarith)
      have e2 : (4/5 : ℚ) * s.sar ≤ (4/5) * L j :=
        mul_le_mul_of_nonneg_left hsar (by norm_num)
      have e3 : (1/5 : ℚ) * s.ep ≤ (1/5) * H (j + 1) :=
        mul_le_mul_of_nonneg_left hep (by norm_num)
      have hgapj := hgap j (le_refl j) (by omega)
      have hcand : s.sar + s.af * (s.ep - s.sar) ≤ L (j + 2) := by linarith
      have hno : ¬ (L (j + 2) < s.sar + s.af * (s.ep - s.sar)) := not_lt.mpr hcand
      have hstep := psarStep_rising (1/50) (1/5) (1/50) false H L (j + 2) s hfall hno
      have hm1 : j + 2 - 1 = j + 1 := by omega
      have hm2 : j + 2 - 2 = j := by omega
      rw [hm1, hm2] at hstep
      -- the updated state
      have hrows : psarRows (1/50) (1/5) (1/50) false H L s (j + 2) (c + 1) =
          psarRowOf (psarStep (1/50) (1/5) (1/50) false H L (j + 2) s).1
              (psarStep (1/50) (1/5) (1/50) false H L (j + 2) s).2 ::
            psarRows (1/50) (1/5) (1/50) false H L
              (psarStep (1/50) (1/5) (1/50) false H L (j + 2) s).1 (j + 3) c := rfl
      rw [hstep] at hrows
      set sar2 := min (L (j + 1)) (min (L j) (s.sar + s.af * (s.ep - s.sar)))
        with hsar2
      set ep1 := (if H (j + 2) > s.ep then H (j + 2) else s.ep) with hep1
      set af1 := (if H (j + 2) > s.ep then min (s.af + 1/50) (1/5) else s.af)
        with haf1def
      -- state invariants for the tail
      have haf0' : (1/50 : ℚ) ≤ af1 := by
        rw [haf1def]
        split
        · exact le_min (by linarith) (by norm_num)
        · exact haf0
      have haf1' : af1 ≤ 1/5 := by
        rw [haf1def]
        split
        · exact min_le_right _ _
        · exact haf1
      have hsar' : sar2 ≤ L (j + 1) := min_le_left _ _
      have hsarj : sar2 ≤ L j := le_trans (min_le_right _ _) (min_le_left _ _)
      have hep' : ep1 ≤ H (j + 2) := by
        rw [hep1]
        split
        · exact le_refl _
        · linarith
      have hepge : H (j + 2) ≤ ep1 := by
        rw [hep1]
        split
        · exact le_refl _
        · linarith
      have hsarep' : sar2 ≤ ep1 := by
        have : sar2 ≤ L (j + 1) := hsar'
        linarith
      have hH' : ∀ t, j + 1 ≤ t → t + 1 ≤ j + 1 + c + 1 → H t < H (t + 1) := by
        intro t ht1 ht2
        exact hH t (by omega) (by omega)
      have hL' : ∀ t, j + 1 ≤ t → t + 1 ≤ j + 1 + c + 1 → L t < L (t + 1) := by
        intro t ht1 ht2
        exact hL t (by omega) (by omega)
      have hLH' : ∀ t, j + 1 ≤ t → t ≤ j + 1 + c + 1 → L t ≤ H t := by
        intro t ht1 ht2
        exact hLH t (by omega) (by omega)
      have hgap' : ∀ t, j + 1 ≤ t → t + 2 ≤ j + 1 + c + 1 →
          L t + (1/5) * (H (t + 1) - L t) ≤ L (t + 2) := by
        intro t ht1 ht2
        exact hgap t (by omega) (by omega)
      have hstate : (⟨sar2, ep1, af1, false⟩ : PsarState).falling = false := rfl
      obtain ⟨ihA, ihB, ihC⟩ := ih (j + 1) ⟨sar2, ep1, af1, false⟩
        hH' hL' hLH' hgap' hstate haf0' haf1' hsar' hep' hsarep'
      have hj3 : j + 1 + 2 = j + 3 := by omega
      rw [hj3] at ihA ihB ihC
      refine ⟨?_, ?_, ?_⟩
      · intro r hr
        rw [hrows] at hr
        rcases List.mem_cons.mp hr with rfl | hr
        · refine ⟨rfl, rfl, rfl⟩
        · exact ihA r hr
      · rw [hrows]
        have hfm : (psarRowOf (⟨sar2, ep1, af1, false⟩ : PsarState) false ::
            psarRows (1/50) (1/5) (1/50) false H L ⟨sar2, ep1, af1, false⟩
              (j + 3) c).filterMap PsarRow.long =
            sar2 :: (psarRows (1/50) (1/5) (1/50) false H L
              ⟨sar2, ep1, af1, false⟩ (j + 3) c).filterMap PsarRow.long := by
          simp [psarRowOf, List.filterMap_cons]
        rw [hfm]
        rw [List.chain'_cons']
        constructor
        · intro w hw
          have hs1 : sar2 < L (j + 1) := lt_of_le_of_lt hsarj hLj1
          have hs2 : sar2 < ep1 := by linarith
          exact ihC hs1 hs2 w hw
        · exact ihB
      · intro hstrict1 hstrict2 w hw
        rw [hrows] at hw
        have hfm : (psarRowOf (⟨sar2, ep1, af1, false⟩ : PsarState) false ::
            psarRows (1/50) (1/5) (1/50) false H L ⟨sar2, ep1, af1, false⟩
              (j + 3) c).filterMap PsarRow.long =
            sar2 :: (psarRows (1/50) (1/5) (1/50) false H L
              ⟨sar2, ep1, af1, false⟩ (j + 3) c).filterMap PsarRow.long := by
          simp [psarRowOf, List.filterMap_cons]
        rw [hfm] at hw
        simp only [List.head?_cons, Option.mem_def, Option.some.injEq] at hw
        subst hw
        have hlt1 : s.sar < L (j + 1) := lt_of_lt_of_le hstrict1 (le_of_lt hLj1)
        have hlt2 : s.sar < s.sar + s.af * (s.ep - s.sar) := by
          have hafpos : (0 : ℚ) < s.af := lt_of_lt_of_le (by norm_num) haf0
          have hdiff : (0 : ℚ) < s.ep - s.sar := by linarith
          nlinarith
        exact lt_min hlt1 (lt_min hstrict1 hlt2)



/-- Helper: reading inside a two-element prefix. -/
theorem getD_take_two (l : List ℚ) (i : ℕ) (hi : i < 2) :
    (l.take 2).getD i 0 = l.getD i 0 := by
  rw [List.getD_eq_getElem?_getD, List.getD_eq_getElem?_getD,
    List.getElem?_take, if_pos hi]

/-- Helper: with a strictly rising low, the seed direction test returns
rising (the `-DM` value is negative). -/
theorem _falling_take2_false (high low : List ℚ) (h2 : 2 ≤ high.length)
    (hl : low.getD 0 0 < low.getD 1 0) :
    _falling (high.take 2) (low.take 2) = false := by
  have hlen : (high.take 2).length - 1 = 1 := by
    rw [List.length_take]
    omega
  have hg0 : (low.take 2).getD 0 0 = low.getD 0 0 := getD_take_two low 0 (by omega)
  have hg1 : (low.take 2).getD 1 0 = low.getD 1 0 := getD_take_two low 1 (by omega)
  simp only [_falling, hlen]
  norm_num [hg0, hg1]
  split_ifs with h
  · exfalso
    have hcon := h.2
    rw [List.getD_eq_getElem?_getD, List.getD_eq_getElem?_getD] at hl
    linarith
  · simp [zero]



/-- Claim C5, amended: a strictly monotonically rising high/low series with
`af0 = af = 0.02`, `max_af = 0.2` and no close seeding never reverses and has
strictly increasing defined `long` values, provided additionally that the
bars are well-formed (`low[i] ≤ high[i]`) and every step's low clears the
worst-case candidate stop: `low[i-2] + max_af * (high[i-1] - low[i-2]) ≤
low[i]`.  Without the clearance condition the claim is false (see the
counterexample): the reversal test uses the unclamped candidate stop. -/
theorem psar_monotone_amended (high low : List ℚ)
    (hlen : low.length = high.length) (h2 : 2 ≤ high.length)
    (hH : ∀ t, t + 1 < high.length → high.getD t 0 < high.getD (t + 1) 0)
    (hL : ∀ t, t + 1 < high.length → low.getD t 0 < low.getD (t + 1) 0)
    (hLH : ∀ t, t < high.length → low.getD t 0 ≤ high.getD t 0)
    (hgap : ∀ t, t + 2 < high.length →
      low.getD t 0 + (1/5) * (high.getD (t + 1) 0 - low.getD t 0) ≤
        low.getD (t + 2) 0)
    (out : PsarOutput)
    (hout : psar high low none (some (1/50)) (some (1/50)) (some (1/5)) false 0
      none none = some out) :
    (∀ i, 2 ≤ i → i < high.length → out.reversal.getD i none = some 0) ∧
    List.Chain' (· < ·) (out.long.filterMap id) := by
  have hhi : high ≠ [] := by
    intro h
    rw [h] at h2
    simp at h2
  have hlo : low ≠ [] := by
    intro h
    rw [h] at hlen
    simp at hlen
    omega
  rw [psar_eq_core_pos high low none (1/50) (1/50) (1/5) false
    (by norm_num) (by norm_num) (by norm_num) hhi hlo] at hout
  have hmin : min 2 high.length = 2 := by omega
  rw [hmin] at hout
  have hx := Option.some.inj hout
  subst hx
  have hf : _falling (high.take 2) (low.take 2) = false :=
    _falling_take2_false high low h2 (hL 0 (by omega))
  have hseed : psarSeed high low none = (low.getD 0 0, high.getD 0 0, false) := by
    simp [psarSeed, hf]
  obtain ⟨auxA, auxB, auxC⟩ := psarRows_rising_aux
    (fun t => high.getD t 0) (fun t => low.getD t 0) (high.length - 2) 0
    ⟨(psarSeed high low none).1, (psarSeed high low none).2.1, 1/50,
      (psarSeed high low none).2.2⟩
    (fun t _ ht2 => hH t (by omega))
    (fun t _ ht2 => hL t (by omega))
    (fun t _ ht2 => hLH t (by omega))
    (fun t _ ht2 => hgap t (by omega))
    (by rw [hseed])
    (by norm_num) (by norm_num)
    (by rw [hseed])
    (by rw [hseed]; exact le_of_lt (hH 0 (by omega)))
    (by rw [hseed]; exact hLH 0 (by omega))
  simp only [Nat.zero_add] at auxA auxB
  have hlenrows := psarRows_length (1/50) (1/5) (1/50) false
    (fun t => high.getD t 0) (fun t => low.getD t 0) (high.length - 2) 2
    ⟨(psarSeed high low none).1, (psarSeed high low none).2.1, 1/50,
      (psarSeed high low none).2.2⟩
  have hlen2 : (List.replicate 2 (psarSeedRow (1/50 : ℚ))).length = 2 :=
    List.length_replicate 2 _
  constructor
  · intro i h2i hin
    have hidx : i - 2 < (psarRows (1/50) (1/5) (1/50) false
        (fun t => high.getD t 0) (fun t => low.getD t 0)
        ⟨(psarSeed high low none).1, (psarSeed high low none).2.1, 1/50,
          (psarSeed high low none).2.2⟩ 2 (high.length - 2)).length := by
      rw [hlenrows]
      omega
    have hle : (List.replicate 2 (psarSeedRow (1/50 : ℚ))).length ≤ i := by
      rw [hlen2]
      omega
    have hcol : PsarOutput.reversal (psarOutputOf
        (List.replicate 2 (psarSeedRow (1/50)) ++
          psarRows (1/50) (1/5) (1/50) false
            (fun t => high.getD t 0) (fun t => low.getD t 0)
            ⟨(psarSeed high low none).1, (psarSeed high low none).2.1, 1/50,
              (psarSeed high low none).2.2⟩ 2 (high.length - 2))) =
        (List.replicate 2 (psarSeedRow (1/50)) ++
          psarRows (1/50) (1/5) (1/50) false
            (fun t => high.getD t 0) (fun t => low.getD t 0)
            ⟨(psarSeed high low none).1, (psarSeed high low none).2.1, 1/50,
              (psarSeed high low none).2.2⟩ 2 (high.length - 2)).map
          (fun r => some r.reversal) := rfl
    rw [hcol, List.getD_eq_getElem?_getD, List.getElem?_map,
      List.getElem?_append_right hle, hlen2,
      List.getElem?_eq_getElem hidx]
    have hmem := List.get_mem _ (i - 2) hidx
    have hrev := (auxA _ hmem).1
    exact congrArg some hrev
  · have hcol : PsarOutput.long (psarOutputOf
        (List.replicate 2 (psarSeedRow (1/50)) ++
          psarRows (1/50) (1/5) (1/50) false
            (fun t => high.getD t 0) (fun t => low.getD t 0)
            ⟨(psarSeed high low none).1, (psarSeed high low none).2.1, 1/50,
              (psarSeed high low none).2.2⟩ 2 (high.length - 2))) =
        (List.replicate 2 (psarSeedRow (1/50)) ++
          psarRows (1/50) (1/5) (1/50) false
            (fun t => high.getD t 0) (fun t => low.getD t 0)
            ⟨(psarSeed high low none).1, (psarSeed high low none).2.1, 1/50,
              (psarSeed high low none).2.2⟩ 2 (high.length - 2)).map
          PsarRow.long := rfl
    rw [hcol, List.filterMap_map]
    rw [show (id ∘ PsarRow.long) = PsarRow.long from rfl]
    rw [List.filterMap_append]
    have hseedsnil : (List.replicate 2 (psarSeedRow (1/50 : ℚ))).filterMap
        PsarRow.long = [] := by
      simp [psarSeedRow]
    rw [hseedsnil, List.nil_append]
    exact auxB



/-- Claim C5, counterexample: `high = [100, 200, 300]` and
`low = [1, 2, 5/2]` are strictly rising well-formed bars, yet with the
claim's parameters the engine reverses at step 2 (`reversal[2] = 1`): the
candidate stop `1 + 0.02 * (100 - 1) = 2.98` exceeds `low[2] = 2.5` and the
reversal test fires before the two-bar clamp is applied. -/
theorem psar_monotone_counterexample :
    (100 : ℚ) < 200 ∧ (200 : ℚ) < 300 ∧ (1 : ℚ) < 2 ∧ (2 : ℚ) < 5/2 ∧
    ((1 : ℚ) ≤ 100 ∧ (2 : ℚ) ≤ 200 ∧ (5/2 : ℚ) ≤ 300) ∧
    (psar [100, 200, 300] [1, 2, 5/2] none (some (1/50)) (some (1/50))
      (some (1/5)) false 0 none none).map
        (fun o => o.reversal.getD 2 none) = some (some 1) := by
  refine ⟨by norm_num, by norm_num, by norm_num, by norm_num,
    ⟨by norm_num, by norm_num, by norm_num⟩, ?_⟩
  norm_num [psar, v_series, v_pos_default, psarSeed, _falling, zero, psarRows,
    psarStep, psarRowOf, psarSeedRow, psarOutputOf, List.getD, List.replicate]

/-- Witness for C5 amended at a concrete three-bar input. -/
theorem psar_monotone_amended_witness :
    (∀ i, 2 ≤ i → i < ([2, 3, 4] : List ℚ).length →
      (⟨[none, none, some 1], [none, none, none],
        [some (1/50), some (1/50), some (1/25)], [some 0, some 0, some 0]⟩ :
          PsarOutput).reversal.getD i none = some 0) ∧
    List.Chain' (· < ·)
      ((⟨[none, none, some 1], [none, none, none],
        [some (1/50), some (1/50), some (1/25)], [some 0, some 0, some 0]⟩ :
          PsarOutput).long.filterMap id) :=
  psar_monotone_amended [2, 3, 4] [1, 2, 3] (by norm_num) (by norm_num)
    (by
      intro t ht
      norm_num at ht
      rcases t with _ | _ | t
      · norm_num [List.getD]
      · norm_num [List.getD]
      · omega)
    (by
      intro t ht
      norm_num at ht
      rcases t with _ | _ | t
      · norm_num [List.getD]
      · norm_num [List.getD]
      · omega)
    (by
      intro t ht
      norm_num at ht
      rcases t with _ | _ | _ | t
      · norm_num [List.getD]
      · norm_num [List.getD]
      · norm_num [List.getD]
      · omega)
    (by
      intro t ht
      norm_num at ht
      rcases t with _ | t
      · norm_num [List.getD]
      · omega)
    ⟨[none, none, some 1], [none, none, none],
      [some (1/50), some (1/50), some (1/25)], [some 0, some 0, some 0]⟩
    (by norm_num [psar, v_series, v_pos_default, psarSeed, _falling, zero,
      psarRows, psarStep, psarRowOf, psarSeedRow, psarOutputOf, List.getD,
      List.replicate])

end PandasTa
